import Mathlib

/-!
Verification development for the Rustle breadth-first web crawler
(src/spider.rs, src/site.rs, src/domain.rs, src/database.rs).

Strings are modelled as `List Char`; timestamps as seconds since the Unix
epoch (`Nat`), covering the `Utc::now()` values the program stores
(chrono `DateTime<Utc>` rendered through `to_rfc3339` and read back with
`parse_from_rfc3339`, in the four-digit-year, `+00:00`-offset profile the
writer emits).  The sqlite driver is the external prepared-statement
executor the spec treats as a collaborator: a store maps primary keys to
rows of raw column text, and a single-quoted SQL string literal built by
the program stores exactly the contents obtained by collapsing the
doubled quotes (`sqlLiteralContents`); a malformed literal makes
prepare/execute fail.
-/

namespace Rustle

abbrev Str := List Char

def quoteChar : Char := Char.ofNat 39

/-- Rust `str::replace("'", "''")` as used on the write paths of
`Site::write_into` and `Domain::write_into`. -/
def doubleQuotes : Str → Str
  | [] => []
  | c :: t =>
    if c = quoteChar then quoteChar :: quoteChar :: doubleQuotes t else c :: doubleQuotes t

/-- Rust `str::replace("''", "'")` (leftmost, non-overlapping) as used on
the read paths of `Site::read_into` and `Domain::read_into`. -/
def collapseQuotes : Str → Str
  | [] => []
  | [c] => [c]
  | c1 :: c2 :: t =>
    if c1 = quoteChar ∧ c2 = quoteChar then quoteChar :: collapseQuotes t
    else c1 :: collapseQuotes (c2 :: t)

/-- True when the string contains no two adjacent single quotes. -/
def noQQ : Str → Bool
  | [] => true
  | [_] => true
  | c1 :: c2 :: t => !(c1 == quoteChar && c2 == quoteChar) && noQQ (c2 :: t)

/-- Contents stored by the sqlite driver for a single-quoted SQL string
literal whose embedded text is `s`; `none` when the literal is malformed
(an unpaired quote), in which case prepare/execute fails. -/
def sqlLiteralContents : Str → Option Str
  | [] => some []
  | c :: t =>
    if c = quoteChar then
      match t with
      | c2 :: t2 =>
        if c2 = quoteChar then (sqlLiteralContents t2).map (fun r => quoteChar :: r) else none
      | [] => none
    else (sqlLiteralContents t).map (fun r => c :: r)

/-- Rust `Vec::join(",")` over the model's iteration order of the
`links_to` hash set. -/
def joinComma : List Str → Str
  | [] => []
  | [l] => l
  | l :: ls => l ++ ',' :: joinComma ls

/-- Prepend a character to the first field of a split. -/
def consHead (c : Char) : List Str → List Str
  | [] => [[c]]
  | h :: r => (c :: h) :: r

/-- Rust `str::split(',')`. -/
def splitComma : Str → List Str
  | [] => [[]]
  | c :: t => if c = ',' then [] :: splitComma t else consHead c (splitComma t)

def isWsChar (c : Char) : Bool := c == ' ' || c == '\t' || c == '\n' || c == '\r'

/-- Rust `str::trim` (restricted to ASCII whitespace). -/
def trimS (s : Str) : Str := ((s.dropWhile isWsChar).reverse.dropWhile isWsChar).reverse

/-! ## RFC 3339 timestamp codec (chrono `to_rfc3339` / `parse_from_rfc3339`) -/

def isLeap (y : Nat) : Bool := y % 4 == 0 && (y % 100 != 0 || y % 400 == 0)

def yearLen (y : Nat) : Nat := if isLeap y then 366 else 365

def monthLen (y m : Nat) : Nat :=
  if m = 2 then (if isLeap y then 29 else 28)
  else if m = 4 ∨ m = 6 ∨ m = 9 ∨ m = 11 then 30
  else 31

/-- Days in the years 1970, …, 1969 + k. -/
def daysUpTo : Nat → Nat
  | 0 => 0
  | Nat.succ k => daysUpTo k + yearLen (1970 + k)

/-- Days from 1970-01-01 to the start of year `y`. -/
def daysToYear (y : Nat) : Nat := daysUpTo (y - 1970)

/-- Days from the start of year `y` to the start of its month `m`. -/
def daysBeforeMonth (y : Nat) : Nat → Nat
  | 0 => 0
  | 1 => 0
  | Nat.succ m => daysBeforeMonth y m + monthLen y m

/-- Scan forward from year `y`, consuming whole years from `days`. -/
def toYearF : Nat → Nat → Nat → Nat × Nat
  | 0, y, days => (y, days)
  | Nat.succ f, y, days =>
    if days < yearLen y then (y, days) else toYearF f (y + 1) (days - yearLen y)

/-- Scan forward from month `m` of year `y`, consuming whole months. -/
def toMonthF : Nat → Nat → Nat → Nat → Nat × Nat
  | 0, _, m, days => (m, days + 1)
  | Nat.succ f, y, m, days =>
    if days < monthLen y m then (m, days + 1) else toMonthF f y (m + 1) (days - monthLen y m)

/-- Civil date (year, month, day) of a day count since 1970-01-01
(proleptic Gregorian, as chrono computes it). -/
def civilFromDays (days : Nat) : Nat × Nat × Nat :=
  let yr := toYearF 9000 1970 days
  let md := toMonthF 11 yr.1 1 yr.2
  (yr.1, md.1, md.2)

/-- Day count since 1970-01-01 of a civil date. -/
def daysFromCivil (y m d : Nat) : Nat := daysToYear y + daysBeforeMonth y m + (d - 1)

theorem yearLen_ge (y : Nat) : 365 ≤ yearLen y := by
  unfold yearLen; split <;> omega

theorem isLeap_add_400 (y : Nat) : isLeap (y + 400) = isLeap y := by
  have h4 : (y + 400) % 4 = y % 4 := by omega
  have h100 : (y + 400) % 100 = y % 100 := by omega
  have h400 : (y + 400) % 400 = y % 400 := by omega
  unfold isLeap
  rw [h4, h100, h400]

theorem yearLen_add_400 (y : Nat) : yearLen (y + 400) = yearLen y := by
  unfold yearLen; rw [isLeap_add_400]

set_option maxRecDepth 4000 in
theorem daysUpTo_400 : daysUpTo 400 = 146097 := by decide

theorem daysUpTo_shift (k : Nat) : daysUpTo (k + 400) = daysUpTo k + 146097 := by
  induction k with
  | zero => exact daysUpTo_400
  | succ n ih =>
    have h1 : n + 1 + 400 = (n + 400) + 1 := by omega
    rw [h1]
    show daysUpTo (n + 400) + yearLen (1970 + (n + 400)) = daysUpTo (n + 1) + 146097
    have h2 : 1970 + (n + 400) = (1970 + n) + 400 := by omega
    rw [ih, h2, yearLen_add_400]
    show daysUpTo n + 146097 + yearLen (1970 + n) = daysUpTo n + yearLen (1970 + n) + 146097
    omega

set_option maxRecDepth 2000 in
theorem daysUpTo_30 : daysUpTo 30 = 10957 := by decide

theorem daysUpTo_8030 : daysUpTo 8030 = 2932897 := by
  have h : ∀ n : Nat, daysUpTo (30 + 400 * n) = 10957 + 146097 * n := by
    intro n
    induction n with
    | zero => simpa using daysUpTo_30
    | succ m ih =>
      have h1 : 30 + 400 * (m + 1) = (30 + 400 * m) + 400 := by omega
      rw [h1, daysUpTo_shift, ih]
      omega
  have h20 := h 20
  norm_num at h20
  exact h20

theorem daysUpTo_mono : ∀ {k l : Nat}, k ≤ l → daysUpTo k ≤ daysUpTo l := by
  intro k l h
  induction l with
  | zero =>
    have hk : k = 0 := by omega
    simp [hk]
  | succ n ih =>
    rcases Nat.lt_or_ge k (n + 1) with hlt | hge
    · have := ih (by omega)
      show daysUpTo k ≤ daysUpTo n + yearLen (1970 + n)
      omega
    · have hk : k = n + 1 := by omega
      simp [hk]

theorem daysToYear_succ (y : Nat) (h : 1970 ≤ y) :
    daysToYear (y + 1) = daysToYear y + yearLen y := by
  unfold daysToYear
  have h1 : y + 1 - 1970 = (y - 1970) + 1 := by omega
  rw [h1]
  show daysUpTo (y - 1970) + yearLen (1970 + (y - 1970)) = _
  have h2 : 1970 + (y - 1970) = y := by omega
  rw [h2]

theorem toYearF_spec : ∀ (f y days : Nat), days < 365 * f → 1970 ≤ y →
    daysToYear (toYearF f y days).1 + (toYearF f y days).2 = daysToYear y + days ∧
    (toYearF f y days).2 < yearLen (toYearF f y days).1 ∧
    1970 ≤ (toYearF f y days).1 := by
  intro f
  induction f with
  | zero => intro y days h hy; omega
  | succ n ih =>
    intro y days h hy
    by_cases hd : days < yearLen y
    · simp only [toYearF, if_pos hd]
      exact ⟨by trivial, hd, hy⟩
    · simp only [toYearF, if_neg hd]
      have hge := yearLen_ge y
      have hstep := daysToYear_succ y hy
      obtain ⟨e1, e2, e3⟩ := ih (y + 1) (days - yearLen y) (by omega) (by omega)
      exact ⟨by omega, e2, e3⟩

theorem daysBeforeMonth_succ (y m : Nat) (h : 1 ≤ m) :
    daysBeforeMonth y (m + 1) = daysBeforeMonth y m + monthLen y m := by
  match m, h with
  | Nat.succ k, _ => rfl

theorem daysBeforeMonth_13 (y : Nat) : daysBeforeMonth y 13 = yearLen y := by
  by_cases h : isLeap y <;>
    simp [daysBeforeMonth, monthLen, yearLen, h]

theorem monthLen_le (y m : Nat) : monthLen y m ≤ 31 := by
  unfold monthLen
  split
  · split <;> omega
  · split <;> omega

theorem toMonthF_spec : ∀ (f y m days : Nat), m + f = 12 → 1 ≤ m →
    daysBeforeMonth y m + days < yearLen y →
    daysBeforeMonth y (toMonthF f y m days).1 + ((toMonthF f y m days).2 - 1) =
      daysBeforeMonth y m + days ∧
    1 ≤ (toMonthF f y m days).2 ∧
    (toMonthF f y m days).2 ≤ monthLen y (toMonthF f y m days).1 ∧
    1 ≤ (toMonthF f y m days).1 ∧ (toMonthF f y m days).1 ≤ 12 := by
  intro f
  induction f with
  | zero =>
    intro y m days hm h1 hlt
    have hm12 : m = 12 := by omega
    subst hm12
    simp only [toMonthF]
    have h13 := daysBeforeMonth_13 y
    have hsucc := daysBeforeMonth_succ y 12 (by omega)
    norm_num at hsucc
    exact ⟨by omega, by omega, by omega, by omega, by omega⟩
  | succ n ih =>
    intro y m days hm h1 hlt
    by_cases hd : days < monthLen y m
    · simp only [toMonthF, if_pos hd]
      exact ⟨by omega, by omega, by omega, h1, by omega⟩
    · simp only [toMonthF, if_neg hd]
      have hsucc := daysBeforeMonth_succ y m h1
      obtain ⟨e1, e2, e3, e4, e5⟩ :=
        ih y (m + 1) (days - monthLen y m) (by omega) (by omega) (by omega)
      exact ⟨by omega, e2, e3, by omega, e5⟩

theorem civilFromDays_spec (days : Nat) (h : days ≤ 2932896) :
    daysFromCivil (civilFromDays days).1 (civilFromDays days).2.1 (civilFromDays days).2.2 =
      days ∧
    1970 ≤ (civilFromDays days).1 ∧ (civilFromDays days).1 ≤ 9999 ∧
    1 ≤ (civilFromDays days).2.1 ∧ (civilFromDays days).2.1 ≤ 12 ∧
    1 ≤ (civilFromDays days).2.2 ∧ (civilFromDays days).2.2 ≤ 31 := by
  obtain ⟨hy1, hy2, hy3⟩ := toYearF_spec 9000 1970 days (by omega) (by omega)
  have hb1 : daysBeforeMonth (toYearF 9000 1970 days).1 1 = 0 := rfl
  obtain ⟨e1, e2, e3, e4, e5⟩ :=
    toMonthF_spec 11 (toYearF 9000 1970 days).1 1 (toYearF 9000 1970 days).2
      (by omega) (by omega) (by omega)
  have h1970 : daysToYear 1970 = 0 := rfl
  have hml := monthLen_le (toYearF 9000 1970 days).1
    (toMonthF 11 (toYearF 9000 1970 days).1 1 (toYearF 9000 1970 days).2).1
  have hy9999 : (toYearF 9000 1970 days).1 ≤ 9999 := by
    by_contra hcon
    have hge : 8030 ≤ (toYearF 9000 1970 days).1 - 1970 := by omega
    have := daysUpTo_mono hge
    rw [daysUpTo_8030] at this
    have hdty : daysToYear (toYearF 9000 1970 days).1 =
        daysUpTo ((toYearF 9000 1970 days).1 - 1970) := rfl
    omega
  simp only [civilFromDays, daysFromCivil]
  exact ⟨by omega, by omega, hy9999, by omega, by omega, by omega, by omega⟩

def digitChr (k : Nat) : Char :=
  match k with
  | 0 => '0' | 1 => '1' | 2 => '2' | 3 => '3' | 4 => '4'
  | 5 => '5' | 6 => '6' | 7 => '7' | 8 => '8' | _ => '9'

def charToDigit (c : Char) : Nat := c.toNat - 48

def pad2 (n : Nat) : Str := [digitChr (n / 10 % 10), digitChr (n % 10)]

def pad4 (n : Nat) : Str :=
  [digitChr (n / 1000 % 10), digitChr (n / 100 % 10), digitChr (n / 10 % 10), digitChr (n % 10)]

/-- chrono `DateTime<Utc>::to_rfc3339` on whole seconds since the epoch:
`YYYY-MM-DDTHH:MM:SS+00:00`. -/
def toRfc3339 (t : Nat) : Str :=
  let days := t / 86400
  let sod := t % 86400
  let c := civilFromDays days
  pad4 c.1 ++ '-' :: pad2 c.2.1 ++ '-' :: pad2 c.2.2 ++ 'T' :: pad2 (sod / 3600) ++
    ':' :: pad2 (sod / 60 % 60) ++ ':' :: pad2 (sod % 60) ++ ['+', '0', '0', ':', '0', '0']

/-- chrono `DateTime::parse_from_rfc3339` restricted to the profile the
writer emits; any other string is a parse error (`none`). -/
def parseRfc3339 (s : Str) : Option Nat :=
  match s with
  | y1 :: y2 :: y3 :: y4 :: '-' :: mo1 :: mo2 :: '-' :: d1 :: d2 :: 'T' :: h1 :: h2 :: ':' ::
      mi1 :: mi2 :: ':' :: s1 :: s2 :: '+' :: '0' :: '0' :: ':' :: '0' :: '0' :: [] =>
    if y1.isDigit && y2.isDigit && y3.isDigit && y4.isDigit && mo1.isDigit && mo2.isDigit &&
        d1.isDigit && d2.isDigit && h1.isDigit && h2.isDigit && mi1.isDigit && mi2.isDigit &&
        s1.isDigit && s2.isDigit then
      let y := ((charToDigit y1 * 10 + charToDigit y2) * 10 + charToDigit y3) * 10 + charToDigit y4
      let mo := charToDigit mo1 * 10 + charToDigit mo2
      let d := charToDigit d1 * 10 + charToDigit d2
      let h := charToDigit h1 * 10 + charToDigit h2
      let mi := charToDigit mi1 * 10 + charToDigit mi2
      let ss := charToDigit s1 * 10 + charToDigit s2
      if 1970 ≤ y ∧ 1 ≤ mo ∧ mo ≤ 12 ∧ 1 ≤ d ∧ d ≤ 31 ∧ h ≤ 23 ∧ mi ≤ 59 ∧ ss ≤ 59 then
        some (daysFromCivil y mo d * 86400 + h * 3600 + mi * 60 + ss)
      else none
    else none
  | _ => none

theorem digitChr_isDigit (k : Nat) : (digitChr k).isDigit = true := by
  unfold digitChr
  split <;> decide

theorem charToDigit_digitChr_mod (x : Nat) : charToDigit (digitChr (x % 10)) = x % 10 := by
  have h : x % 10 < 10 := by omega
  generalize hk : x % 10 = k at h ⊢
  interval_cases k <;> decide

set_option maxHeartbeats 4000000 in
theorem parseRfc3339_toRfc3339 (t : Nat) (ht : t < 253402300800) :
    parseRfc3339 (toRfc3339 t) = some t := by
  have hdays : t / 86400 ≤ 2932896 := by omega
  obtain ⟨hrt, hy1, hy2, hm1, hm2, hd1, hd2⟩ := civilFromDays_spec (t / 86400) hdays
  simp only [toRfc3339]
  generalize hc : civilFromDays (t / 86400) = c at hrt hy1 hy2 hm1 hm2 hd1 hd2 ⊢
  obtain ⟨y, m, d⟩ := c
  dsimp only at hrt hy1 hy2 hm1 hm2 hd1 hd2 ⊢
  simp only [pad4, pad2, List.cons_append, List.nil_append]
  simp only [parseRfc3339, digitChr_isDigit, Bool.and_true, Bool.true_and, if_true,
    charToDigit_digitChr_mod]
  have hy' : ((y / 1000 % 10 * 10 + y / 100 % 10) * 10 + y / 10 % 10) * 10 + y % 10 = y := by
    omega
  have hm' : m / 10 % 10 * 10 + m % 10 = m := by omega
  have hd' : d / 10 % 10 * 10 + d % 10 = d := by omega
  have hh' : t % 86400 / 3600 / 10 % 10 * 10 + t % 86400 / 3600 % 10 = t % 86400 / 3600 := by
    omega
  have hmi' : t % 86400 / 60 % 60 / 10 % 10 * 10 + t % 86400 / 60 % 60 % 10 =
      t % 86400 / 60 % 60 := by omega
  have hss' : t % 86400 % 60 / 10 % 10 * 10 + t % 86400 % 60 % 10 = t % 86400 % 60 := by omega
  rw [hy', hm', hd', hh', hmi', hss']
  rw [if_pos ⟨hy1, hm1, hm2, hd1, hd2, by omega, by omega, by omega⟩]
  rw [hrt]
  exact congrArg some (by omega)

/-! ## Quote escaping, set serialization -/

theorem doubleQuotes_q (t : Str) :
    doubleQuotes (quoteChar :: t) = quoteChar :: quoteChar :: doubleQuotes t := by
  simp [doubleQuotes]

theorem doubleQuotes_cons (c : Char) (t : Str) (hc : c ≠ quoteChar) :
    doubleQuotes (c :: t) = c :: doubleQuotes t := by
  simp [doubleQuotes, hc]

theorem collapseQuotes_qq (t : Str) :
    collapseQuotes (quoteChar :: quoteChar :: t) = quoteChar :: collapseQuotes t := by
  simp [collapseQuotes]

theorem collapseQuotes_cons₂ (c d : Char) (t : Str) (h : ¬(c = quoteChar ∧ d = quoteChar)) :
    collapseQuotes (c :: d :: t) = c :: collapseQuotes (d :: t) := by
  simp only [collapseQuotes, if_neg h]

theorem collapseQuotes_doubleQuotes : ∀ s : Str, collapseQuotes (doubleQuotes s) = s := by
  intro s
  induction s with
  | nil => rfl
  | cons c t ih =>
    by_cases hc : c = quoteChar
    · subst hc
      rw [doubleQuotes_q, collapseQuotes_qq, ih]
    · rw [doubleQuotes_cons c t hc]
      cases hDt : doubleQuotes t with
      | nil =>
        have ht : t = [] := by
          cases t with
          | nil => rfl
          | cons a b =>
            by_cases ha : a = quoteChar <;> simp [doubleQuotes, ha] at hDt
        subst ht
        rfl
      | cons d r =>
        rw [collapseQuotes_cons₂ c d r (fun h => hc h.1), ← hDt, ih]

theorem sqlLiteralContents_qq (t : Str) :
    sqlLiteralContents (quoteChar :: quoteChar :: t) =
      (sqlLiteralContents t).map (fun r => quoteChar :: r) := rfl

theorem sqlLiteralContents_cons (c : Char) (t : Str) (hc : c ≠ quoteChar) :
    sqlLiteralContents (c :: t) = (sqlLiteralContents t).map (fun r => c :: r) := by
  rw [sqlLiteralContents.eq_def]
  dsimp only
  rw [if_neg hc]

theorem sqlLiteralContents_doubleQuotes :
    ∀ s : Str, sqlLiteralContents (doubleQuotes s) = some s := by
  intro s
  induction s with
  | nil => rfl
  | cons c t ih =>
    by_cases hc : c = quoteChar
    · subst hc
      rw [doubleQuotes_q, sqlLiteralContents_qq, ih]
      rfl
    · rw [doubleQuotes_cons c t hc, sqlLiteralContents_cons c _ hc, ih]
      rfl

theorem collapseQuotes_of_noQQ : ∀ s : Str, noQQ s = true → collapseQuotes s = s := by
  intro s
  induction s with
  | nil => intro _; rfl
  | cons c t ih =>
    intro h
    cases t with
    | nil => rfl
    | cons d r =>
      have h1 : ¬(c = quoteChar ∧ d = quoteChar) := by
        intro hcd
        rw [hcd.1, hcd.2] at h
        simp [noQQ] at h
      have h2 : noQQ (d :: r) = true := by
        simp only [noQQ, Bool.and_eq_true] at h
        exact h.2
      rw [collapseQuotes_cons₂ c d r h1, ih h2]

theorem noQQ_cons (c : Char) (t : Str) (hc : c ≠ quoteChar) (ht : noQQ t = true) :
    noQQ (c :: t) = true := by
  cases t with
  | nil => rfl
  | cons d r =>
    simp only [noQQ, Bool.and_eq_true]
    refine ⟨?_, ht⟩
    simp [hc]

theorem noQQ_tail (c : Char) (t : Str) (h : noQQ (c :: t) = true) : noQQ t = true := by
  cases t with
  | nil => rfl
  | cons d r =>
    simp only [noQQ, Bool.and_eq_true] at h
    exact h.2

theorem noQQ_append_cons :
    ∀ (a : Str) (c : Char) (b : Str), noQQ a = true → c ≠ quoteChar → noQQ (c :: b) = true →
      noQQ (a ++ c :: b) = true := by
  intro a
  induction a with
  | nil => intro c b _ _ hb; exact hb
  | cons x t ih =>
    intro c b ha hc hb
    cases t with
    | nil =>
      show noQQ (x :: c :: b) = true
      simp only [noQQ, Bool.and_eq_true]
      constructor
      · have : (c == quoteChar) = false := by simp [hc]
        simp [this]
      · exact hb
    | cons y r =>
      simp only [List.cons_append]
      have ha1 : (!(x == quoteChar && y == quoteChar)) = true := by
        simp only [noQQ, Bool.and_eq_true] at ha
        exact ha.1
      have ha2 : noQQ (y :: r) = true := noQQ_tail x (y :: r) ha
      have hrec := ih c b ha2 hc hb
      show noQQ (x :: y :: (r ++ c :: b)) = true
      simp only [noQQ, Bool.and_eq_true]
      exact ⟨ha1, hrec⟩

theorem noQQ_joinComma :
    ∀ ls : List Str, (∀ l ∈ ls, noQQ l = true) → noQQ (joinComma ls) = true := by
  intro ls
  induction ls with
  | nil => intro _; rfl
  | cons l rest ih =>
    intro h
    cases rest with
    | nil => exact h l (by simp)
    | cons l2 r2 =>
      show noQQ (l ++ ',' :: joinComma (l2 :: r2)) = true
      refine noQQ_append_cons l ',' (joinComma (l2 :: r2)) (h l (by simp)) (by decide) ?_
      refine noQQ_cons ',' (joinComma (l2 :: r2)) (by decide) ?_
      exact ih (fun x hx => h x (by simp [hx]))

theorem splitComma_no_comma : ∀ l : Str, ¬(',' ∈ l) → splitComma l = [l] := by
  intro l
  induction l with
  | nil => intro _; rfl
  | cons c t ih =>
    intro h
    have hc : c ≠ ',' := fun hcc => h (by simp [hcc])
    have ht : ¬(',' ∈ t) := fun hm => h (by simp [hm])
    simp only [splitComma, if_neg hc, ih ht, consHead]

theorem splitComma_append :
    ∀ (l r : Str), ¬(',' ∈ l) → splitComma (l ++ ',' :: r) = l :: splitComma r := by
  intro l
  induction l with
  | nil =>
    intro r _
    simp [splitComma]
  | cons c t ih =>
    intro r h
    have hc : c ≠ ',' := fun hcc => h (by simp [hcc])
    have ht : ¬(',' ∈ t) := fun hm => h (by simp [hm])
    rw [List.cons_append]
    simp only [splitComma, if_neg hc]
    rw [ih r ht]
    rfl

theorem splitComma_joinComma :
    ∀ ls : List Str, ls ≠ [] → (∀ l ∈ ls, ¬(',' ∈ l)) →
      splitComma (joinComma ls) = ls := by
  intro ls
  induction ls with
  | nil => intro h _; exact absurd rfl h
  | cons l rest ih =>
    intro _ h
    cases rest with
    | nil => exact splitComma_no_comma l (h l (by simp))
    | cons l2 r2 =>
      show splitComma (l ++ ',' :: joinComma (l2 :: r2)) = _
      rw [splitComma_append l _ (h l (by simp))]
      rw [ih (by simp) (fun x hx => h x (by simp [hx]))]

theorem map_trimS_id : ∀ ls : List Str, (∀ l ∈ ls, trimS l = l) → ls.map trimS = ls := by
  intro ls
  induction ls with
  | nil => intro _; rfl
  | cons l rest ih =>
    intro h
    simp only [List.map_cons, h l (by simp), ih (fun x hx => h x (by simp [hx]))]

/-! ## Store model (src/database.rs as the external sqlite driver) -/

structure SiteRow where
  crawl_time : Str
  links_to : Str
deriving DecidableEq

structure DomainRow where
  crawl_time : Str
  robots : Str
deriving DecidableEq

/-- The on-disk store: the `sites` and `domains` tables, primary key to
raw column text. -/
structure DB where
  sites : List (Str × SiteRow)
  domains : List (Str × DomainRow)
deriving DecidableEq

def getRow {ρ : Type} (k : Str) : List (Str × ρ) → Option ρ
  | [] => none
  | p :: r => if p.1 = k then some p.2 else getRow k r

/-- `INSERT OR REPLACE` keyed on the primary key. -/
def putRow {ρ : Type} (k : Str) (v : ρ) (t : List (Str × ρ)) : List (Str × ρ) :=
  (k, v) :: t.filter (fun p => !(p.1 == k))

theorem getRow_putRow {ρ : Type} (k : Str) (v : ρ) (t : List (Str × ρ)) :
    getRow k (putRow k v t) = some v := by
  simp [getRow, putRow]

/-! ## Site records (src/site.rs) -/

structure Site where
  url : Str
  crawl_time : Nat
  links_to : List Str
deriving DecidableEq

/-- `Site::write_into` (src/site.rs): joins `links_to` with `,`, renders
`crawl_time` as RFC 3339, doubles single quotes in `url` and in the
joined links, and runs `INSERT OR REPLACE` with
`database.execute(..).unwrap()`.  `execFails` is the oracle for a Store
execute failure; the unwrap then panics, modelled as `none`. -/
def Site.write_into (execFails : Bool) (s : Site) (db : DB) : Option DB :=
  match sqlLiteralContents (doubleQuotes s.url),
      sqlLiteralContents (toRfc3339 s.crawl_time),
      sqlLiteralContents (doubleQuotes (joinComma s.links_to)) with
  | some ku, some kc, some kl =>
    if execFails then none
    else some { db with sites := putRow ku { crawl_time := kc, links_to := kl } db.sites }
  | _, _, _ => none

/-- `Site::read_into` (src/site.rs): selects by url (single quotes
doubled in the query literal), parses `crawl_time` as RFC 3339
(`?`-propagating an error on failure), and splits a non-empty `links_to`
column on `,` after collapsing doubled quotes, trimming each element;
the returned `url` field is the query argument with doubled quotes
collapsed. -/
def Site.read_into (url : Str) (db : DB) : Except Str (Option Site) :=
  match sqlLiteralContents (doubleQuotes url) with
  | none => .error ("Failed to prepare SQLite statement".data)
  | some ku =>
    match getRow ku db.sites with
    | none => .ok none
    | some row =>
      match parseRfc3339 row.crawl_time with
      | none => .error ("Failed to parse crawl_time as RFC 3339".data)
      | some t =>
        let links := if row.links_to = [] then []
          else (splitComma (collapseQuotes row.links_to)).map trimS
        .ok (some { url := collapseQuotes url, crawl_time := t, links_to := links })

/-! ## Domain records (src/domain.rs) -/

structure Domain where
  domain : Str
  crawl_time : Nat
  robots : Str
deriving DecidableEq

/-- `Domain::write_into` (src/domain.rs): the `domain` key is embedded in
the SQL literal with NO quote escaping, `robots` with quotes doubled;
`database.execute(..).unwrap()` panics (`none`) if the literal is
malformed or the execute fails (failures of the driver itself are not
modelled here because no claim depends on them for domains). -/
def Domain.write_into (d : Domain) (db : DB) : Option DB :=
  match sqlLiteralContents d.domain,
      sqlLiteralContents (toRfc3339 d.crawl_time),
      sqlLiteralContents (doubleQuotes d.robots) with
  | some kd, some kc, some kr =>
    some { db with domains := putRow kd { crawl_time := kc, robots := kr } db.domains }
  | _, _, _ => none

/-- `Domain::read_into` (src/domain.rs): selects by the raw `domain`
string (prepare fails on a malformed literal and the `?` propagates the
error), collapses doubled quotes in the `robots` column, parses
`crawl_time` as RFC 3339, and returns the `domain` field verbatim. -/
def Domain.read_into (domain : Str) (db : DB) : Except Str (Option Domain) :=
  match sqlLiteralContents domain with
  | none => .error ("Failed to prepare SQLite statement".data)
  | some kd =>
    match getRow kd db.domains with
    | none => .ok none
    | some row =>
      match parseRfc3339 row.crawl_time with
      | none => .error ("Failed to parse crawl_time as RFC 3339".data)
      | some t =>
        .ok (some { domain := domain, crawl_time := t, robots := collapseQuotes row.robots })

/-! ## Robots gate (robots_txt crate: sections, `choose_section("Rustle")`,
`SimpleMatcher::check_path`), modelled at the granularity the crawler
observes: sections of user-agents with Allow/Disallow prefix rules,
longest match wins, allowed by default. -/

structure RobotsRule where
  allow : Bool
  path : Str
deriving DecidableEq

structure RSection where
  agents : List Str
  rules : List RobotsRule
deriving DecidableEq

/-- Generic single-character split (used for robots.txt lines). -/
def splitOn (sep : Char) : Str → List Str
  | [] => [[]]
  | c :: t => if c = sep then [] :: splitOn sep t else consHead c (splitOn sep t)

/-- Boolean string-prefix test. -/
def isPre : Str → Str → Bool
  | [], _ => true
  | _ :: _, [] => false
  | a :: ar, b :: br => a == b && isPre ar br

/-- Drop prefix `p` from `s`, or fail. -/
def dropPre : Str → Str → Option Str
  | [], s => some s
  | _ :: _, [] => none
  | a :: ar, b :: br => if a = b then dropPre ar br else none

inductive RLine
  | ua (agent : Str)
  | rule (r : RobotsRule)
  | other

def classifyLine (l : Str) : RLine :=
  let lt := trimS l
  match dropPre ("User-agent:".data) lt with
  | some rest => .ua (trimS rest)
  | none =>
    match dropPre ("Allow:".data) lt with
    | some rest => .rule { allow := true, path := trimS rest }
    | none =>
      match dropPre ("Disallow:".data) lt with
      | some rest => .rule { allow := false, path := trimS rest }
      | none => .other

def robotsSections (txt : Str) : List RSection :=
  let fin := (splitOn '\n' txt).foldl
    (fun (st : List RSection × RSection × Bool) l =>
      match classifyLine l with
      | .ua a =>
        if st.2.2 then (st.1, { st.2.1 with agents := st.2.1.agents ++ [a] }, true)
        else if st.2.1.agents = [] ∧ st.2.1.rules = [] then (st.1, { agents := [a], rules := [] }, true)
        else (st.1 ++ [st.2.1], { agents := [a], rules := [] }, true)
      | .rule r => (st.1, { st.2.1 with rules := st.2.1.rules ++ [r] }, false)
      | .other => (st.1, st.2.1, false))
    ([], { agents := [], rules := [] }, false)
  fin.1 ++ [fin.2.1]

def chooseSection (txt ua : Str) : List RobotsRule :=
  let secs := robotsSections txt
  match secs.find? (fun s => s.agents.contains ua) with
  | some s => s.rules
  | none =>
    match secs.find? (fun s => s.agents.contains ("*".data)) with
    | some s => s.rules
    | none => []

def checkPath (rules : List RobotsRule) (path : Str) : Bool :=
  match rules.filter (fun r => isPre r.path path) with
  | [] => true
  | r0 :: rest =>
    (rest.foldl
      (fun a b =>
        if b.path.length > a.path.length then b
        else if b.path.length = a.path.length && b.allow then b
        else a)
      r0).allow

/-! ## URL parsing (url crate, WHATWG profile for the inputs the crawler
meets: scheme, authority with userinfo/port stripping, path; special
schemes tolerate missing slashes and reject an empty host; host case is
kept as written). -/

structure UrlParts where
  scheme : Str
  host : Option Str
  path : Str
deriving DecidableEq

def isSchemeChar (c : Char) : Bool := c.isAlphanum || c == '+' || c == '-' || c == '.'

def splitScheme : Str → Option (Str × Str)
  | [] => none
  | c :: t =>
    if c = ':' then some ([], t)
    else if isSchemeChar c then
      match splitScheme t with
      | some (sch, rest) => some (c :: sch, rest)
      | none => none
    else none

def specialSchemes : List Str := ["http".data, "https".data, "ws".data, "wss".data, "ftp".data]

def authDelim (c : Char) : Bool := c == '/' || c == '?' || c == '#'

def hostOfAuth (auth : Str) : Str :=
  let afterUser := if auth.contains '@' then (auth.dropWhile (fun c => !(c == '@'))).drop 1 else auth
  afterUser.takeWhile (fun c => !(c == ':'))

def lowerStr (s : Str) : Str := s.map Char.toLower

def urlParse (s : Str) : Option UrlParts :=
  match s with
  | [] => none
  | c :: _ =>
    if c.isAlpha then
      match splitScheme s with
      | none => none
      | some (schRaw, rest) =>
        let sch := lowerStr schRaw
        if sch ∈ specialSchemes then
          let r2 := rest.dropWhile (fun c => c == '/')
          let auth := r2.takeWhile (fun c => !(authDelim c))
          let after := r2.dropWhile (fun c => !(authDelim c))
          let hst := hostOfAuth auth
          let p := after.takeWhile (fun c => !(c == '?' || c == '#'))
          if hst = [] then none
          else some { scheme := sch, host := some hst, path := if p = [] then ['/'] else p }
        else
          match rest with
          | '/' :: '/' :: r2 =>
            let auth := r2.takeWhile (fun c => !(authDelim c))
            let after := r2.dropWhile (fun c => !(authDelim c))
            some { scheme := sch, host := some (hostOfAuth auth),
                   path := after.takeWhile (fun c => !(c == '?' || c == '#')) }
          | _ => some { scheme := sch, host := none,
                        path := rest.takeWhile (fun c => !(c == '?' || c == '#')) }
    else none

/-! ## Crawler (src/spider.rs) -/

inductive Res (α : Type)
  | panicked
  | err (msg : Str)
  | ok (val : α)
deriving DecidableEq

/-- `Crawler::normalize_url` (src/spider.rs, latest variant: any host
accepted). -/
def normalize_url (origin_url : Str) (url : Str) : Option Str :=
  match urlParse url with
  | some parsed => if parsed.host.isSome then some url else none
  | none =>
    if isPre ("//".data) url then some ("https:".data ++ url)
    else if isPre ("/".data) url then some (origin_url ++ url)
    else none

/-- `Crawler::get_html` (src/spider.rs): `Url::parse(url).unwrap()`
(panic on parse failure), scheme gate, then the blocking GET; the
`fetch` oracle merges network and UTF-8 failures into `none`. -/
def get_html (fetch : Str → Option Str) (url : Str) : Res (Option Str) :=
  match urlParse url with
  | none => .panicked
  | some parsed =>
    if parsed.scheme ≠ "http".data ∧ parsed.scheme ≠ "https".data then .ok none
    else
      match fetch url with
      | none => .ok none
      | some html => .ok (some html)

/-- `Crawler::should_skip_cached_url` (src/spider.rs): true iff a stored
record's `crawl_time` is strictly newer than `Utc::now() - Duration::days(1)`;
read errors propagate via `?`. -/
def should_skip_cached_url (now : Nat) (url : Str) (db : DB) : Except Str Bool :=
  match Site.read_into url db with
  | .error e => .error e
  | .ok none => .ok false
  | .ok (some site) => .ok (decide ((now : Int) - 86400 < (site.crawl_time : Int)))

def rustleUA : Str := "Rustle".data

/-- `Crawler::is_allowed_to_scrape` (src/spider.rs): unwraps
`Url::parse` and `host_str` (panics modelled as `.panicked`), reads the
DomainRecord, on a miss fetches robots.txt (`fetchRobots` oracle: `none`
is any failed or non-2xx fetch) and writes a record only on success,
then matches the path against the chosen section. -/
def is_allowed_to_scrape (now : Nat) (fetchRobots : Str → Option Str) (url : Str) (db : DB) :
    Res (Bool × DB) :=
  match urlParse url with
  | none => .panicked
  | some parsed =>
    match parsed.host with
    | none => .panicked
    | some host =>
      match Domain.read_into host db with
      | .error e => .err e
      | .ok (some domainData) =>
        .ok (checkPath (chooseSection domainData.robots rustleUA) parsed.path, db)
      | .ok none =>
        match fetchRobots host with
        | some robotsContent =>
          match Domain.write_into
              { domain := host, crawl_time := now, robots := robotsContent } db with
          | none => .panicked
          | some db2 => .ok (checkPath (chooseSection robotsContent rustleUA) parsed.path, db2)
        | none => .ok (checkPath (chooseSection [] rustleUA) parsed.path, db)

/-- `Crawler::write_site` (src/spider.rs): builds the Site with
`Utc::now()` and writes it. -/
def write_site (execFails : Bool) (now : Nat) (url : Str) (links_to : List Str) (db : DB) :
    Option DB :=
  Site.write_into execFails { url := url, crawl_time := now, links_to := links_to } db

/-- `Crawler::fetch_and_process_links` (src/spider.rs): failed fetch →
empty set and no write; successful fetch → extract links, write the
SiteRecord (panic on execute failure), return the links. -/
def fetch_and_process_links (fetch : Str → Option Str) (extract : Str → List Str)
    (execFails : Bool) (now : Nat) (url : Str) (db : DB) : Res (List Str × DB) :=
  match get_html fetch url with
  | .panicked => .panicked
  | .err e => .err e
  | .ok none => .ok ([], db)
  | .ok (some html) =>
    let links := extract html
    match write_site execFails now url links db with
    | none => .panicked
    | some db2 => .ok (links, db2)

/-- The per-URL closure of `Crawler::iterate_links` (src/spider.rs
lines 337-349): `should_skip_cached_url(url).unwrap()` and, only when it
is true, `is_allowed_to_scrape(url).unwrap()` (short-circuit `&&`);
drop (`ok none`) exactly when skip ∧ ¬allowed, otherwise fetch and
return the links. -/
def processUrl (shouldSkip : Str → Except Str Bool) (isAllowed : Str → Except Str Bool)
    (fetchLinks : Str → List Str) (url : Str) : Res (Option (Str × List Str)) :=
  match shouldSkip url with
  | .error _ => .panicked
  | .ok true =>
    match isAllowed url with
    | .error _ => .panicked
    | .ok false => .ok none
    | .ok true => .ok (some (url, fetchLinks url))
  | .ok false => .ok (some (url, fetchLinks url))

def insertS (a : Str) (l : List Str) : List Str := if a ∈ l then l else l ++ [a]

def diffS (l v : List Str) : List Str := l.filter (fun x => !(v.contains x))

def unionS (a b : List Str) : List Str := a ++ b.filter (fun x => !(a.contains x))

/-- One breadth level of `Crawler::iterate_links`: the rayon
fold with `(HashSet::new(), HashSet::new())` as the initial pair,
`visited.insert(url)` then `new.extend(links.difference(&visited))` per
processed URL, taken in frontier order (one admissible schedule of the
parallel fold).  `gate url = true` models the compound skip condition
`should_skip && !is_allowed`; `links url` the outcome of
`fetch_and_process_links`.  Returns (processed trace, fold-local
visited, fold-local new). -/
def levelStep (gate : Str → Bool) (links : Str → List Str) (frontier : List Str) :
    List Str × List Str × List Str :=
  frontier.foldl
    (fun acc url =>
      if gate url then acc
      else
        let vis2 := insertS url acc.2.1
        (acc.1 ++ [url], vis2, unionS acc.2.2 (diffS (links url) vis2)))
    ([], [], [])

/-- The `while !(depth >= recursion_depth) && !new_urls.is_empty()` loop
of `Crawler::iterate_links`: after a level, `visited_urls.extend(...)`
and `new_urls = next_new_urls` (the next frontier is NOT diffed against
the cumulative visited set).  Returns (processed trace, visited,
frontier). -/
def iterLoop (gate : Str → Bool) (links : Str → List Str) :
    Nat → List Str → List Str → List Str × List Str × List Str
  | 0, visited, newUrls => ([], visited, newUrls)
  | Nat.succ k, visited, newUrls =>
    if newUrls = [] then ([], visited, newUrls)
    else
      let step := levelStep gate links newUrls
      let rest := iterLoop gate links k (unionS visited step.2.1) step.2.2
      (step.1 ++ rest.1, rest.2.1, rest.2.2)

/-- `Crawler::iterate_links` (src/spider.rs): visited seeded with the
origin, initial frontier `origin_links \ visited`, then the level loop
with `depth = 0`. -/
def iterate_links (gate : Str → Bool) (links : Str → List Str) (origin : Str)
    (originLinks : List Str) (depthLimit : Nat) : List Str × List Str × List Str :=
  iterLoop gate links depthLimit [origin] (diffS originLinks [origin])

/-! ## Helper lemmas for the claims -/

theorem digitChr_ne_quote (k : Nat) : digitChr k ≠ quoteChar := by
  unfold digitChr
  split <;> decide

theorem sqlLiteralContents_no_quote :
    ∀ s : Str, ¬(quoteChar ∈ s) → sqlLiteralContents s = some s := by
  intro s
  induction s with
  | nil => intro _; rfl
  | cons c t ih =>
    intro h
    have hc : c ≠ quoteChar := fun hq => h (by simp [hq])
    rw [sqlLiteralContents_cons c t hc, ih (fun hm => h (by simp [hm]))]
    rfl

theorem quoteChar_not_mem_toRfc3339 (t : Nat) : ¬(quoteChar ∈ toRfc3339 t) := by
  intro hmem
  have hd : ∀ k : Nat, (quoteChar = digitChr k) = False :=
    fun k => eq_false (fun hq => digitChr_ne_quote k hq.symm)
  simp only [toRfc3339, pad4, pad2, List.cons_append, List.nil_append, List.mem_cons,
    List.not_mem_nil, or_false, hd] at hmem
  simp +decide at hmem

theorem sqlLiteralContents_toRfc3339 (t : Nat) :
    sqlLiteralContents (toRfc3339 t) = some (toRfc3339 t) :=
  sqlLiteralContents_no_quote (toRfc3339 t) (quoteChar_not_mem_toRfc3339 t)

theorem joinComma_ne_nil (ls : List Str) (h0 : ls ≠ []) (h1 : ls ≠ [[]]) :
    joinComma ls ≠ [] := by
  match ls, h0 with
  | [l], _ =>
    show l ≠ []
    intro he
    exact h1 (by rw [he])
  | l :: l2 :: rest, _ =>
    show l ++ ',' :: joinComma (l2 :: rest) ≠ []
    simp

theorem twAppend_stop {p : Char → Bool} :
    ∀ (a b : Str), a.dropWhile p ≠ [] →
      (a ++ b).takeWhile p = a.takeWhile p ∧ (a ++ b).dropWhile p = a.dropWhile p ++ b := by
  intro a
  induction a with
  | nil => intro b h; exact absurd rfl h
  | cons c t ih =>
    intro b h
    by_cases hc : p c
    · have ht : t.dropWhile p ≠ [] := by
        simpa [List.dropWhile, hc] using h
      obtain ⟨e1, e2⟩ := ih b ht
      simp [List.takeWhile, List.dropWhile, hc, e1, e2]
    · simp [List.takeWhile, List.dropWhile, hc]

theorem twAppend_thru {p : Char → Bool} :
    ∀ (a b : Str), a.dropWhile p = [] →
      (a ++ b).takeWhile p = a ++ b.takeWhile p ∧ (a ++ b).dropWhile p = b.dropWhile p := by
  intro a
  induction a with
  | nil => intro b _; exact ⟨rfl, rfl⟩
  | cons c t ih =>
    intro b h
    by_cases hc : p c
    · have ht : t.dropWhile p = [] := by
        simpa [List.dropWhile, hc] using h
      obtain ⟨e1, e2⟩ := ih b ht
      simp [List.takeWhile, List.dropWhile, hc, e1, e2]
    · simp [List.dropWhile, hc] at h

theorem takeWhile_eq_self_of_dropWhile_nil {p : Char → Bool} :
    ∀ a : Str, a.dropWhile p = [] → a.takeWhile p = a := by
  intro a
  induction a with
  | nil => intro _; rfl
  | cons c t ih =>
    intro h
    by_cases hc : p c
    · have ht : t.dropWhile p = [] := by
        simpa [List.dropWhile, hc] using h
      simp [List.takeWhile, hc, ih ht]
    · simp [List.dropWhile, hc] at h

theorem splitScheme_append :
    ∀ (s u : Str) (pq : Str × Str), splitScheme s = some pq →
      splitScheme (s ++ u) = some (pq.1, pq.2 ++ u) := by
  intro s
  induction s with
  | nil => intro u pq h; simp [splitScheme] at h
  | cons c t ih =>
    intro u pq h
    by_cases hc : c = ':'
    · subst hc
      simp only [splitScheme, if_pos rfl] at h ⊢
      cases h
      rfl
    · by_cases hsc : isSchemeChar c
      · simp only [splitScheme, if_neg hc, if_pos hsc] at h ⊢
        cases hq : splitScheme t with
        | none => rw [hq] at h; exact Option.noConfusion h
        | some q =>
          obtain ⟨q1, q2⟩ := q
          rw [hq] at h
          simp only [List.append_eq]
          rw [ih u (q1, q2) hq]
          cases h
          rfl
      · simp only [splitScheme, if_neg hc, if_neg hsc] at h
        exact Option.noConfusion h

theorem hostOfAuth_nil : hostOfAuth [] = [] := rfl

theorem urlParse_append_slash (origin u : Str) (po : UrlParts) (h : Str)
    (ho : urlParse origin = some po)
    (hsp : po.scheme ∈ specialSchemes)
    (hh : po.host = some h)
    (hu : isPre ("/".data) u = true) :
    ∃ pr, urlParse (origin ++ u) = some pr ∧ pr.host = some h := by
  obtain ⟨u2, rfl⟩ : ∃ u2, u = '/' :: u2 := by
    cases u with
    | nil => exact absurd hu (by decide)
    | cons a b =>
      have h2 : ('/' == a) = true := by simpa [isPre] using hu
      have ha : '/' = a := beq_iff_eq.mp h2
      exact ⟨b, by rw [← ha]⟩
  cases origin with
  | nil => simp [urlParse] at ho
  | cons c t =>
    rw [List.cons_append]
    simp only [urlParse] at ho ⊢
    by_cases hca : c.isAlpha
    case neg =>
      rw [if_neg hca] at ho
      exact Option.noConfusion ho
    rw [if_pos hca] at ho ⊢
    cases hss : splitScheme (c :: t) with
    | none =>
      rw [hss] at ho
      exact Option.noConfusion ho
    | some pq =>
      obtain ⟨sch0, rest⟩ := pq
      rw [hss] at ho
      have hss2 := splitScheme_append (c :: t) ('/' :: u2) (sch0, rest) hss
      rw [List.cons_append] at hss2
      rw [hss2]
      dsimp only at ho ⊢
      by_cases hspc : lowerStr sch0 ∈ specialSchemes
      case neg =>
        rw [if_neg hspc] at ho
        have hscheme : po.scheme = lowerStr sch0 := by
          split at ho <;> (injection ho with ho2; rw [← ho2])
        rw [hscheme] at hsp
        exact absurd hsp hspc
      case pos =>
        rw [if_pos hspc] at ho ⊢
        set r2 := rest.dropWhile (fun c => c == '/') with hr2
        set auth := r2.takeWhile (fun c => !(authDelim c)) with hauth
        by_cases hhe : hostOfAuth auth = []
        · rw [if_pos hhe] at ho
          exact Option.noConfusion ho
        · rw [if_neg hhe] at ho
          injection ho with ho2
          subst ho2
          have hhost : hostOfAuth auth = h := by
            have := hh.symm
            simp at this
            exact this.symm
          have hauth_ne : auth ≠ [] := fun he => hhe (by rw [he, hostOfAuth_nil])
          have hr2_ne : r2 ≠ [] := by
            intro he
            apply hauth_ne
            rw [hauth, he]
            rfl
          obtain ⟨_, e2⟩ := twAppend_stop rest ('/' :: u2) (by rw [← hr2]; exact hr2_ne)
          rw [e2, ← hr2]
          have hauth2 : (r2 ++ '/' :: u2).takeWhile (fun c => !(authDelim c)) = auth := by
            by_cases hstop : r2.dropWhile (fun c => !(authDelim c)) = []
            · obtain ⟨f1, _⟩ := twAppend_thru r2 ('/' :: u2) hstop
              rw [f1]
              have hslash : ('/' :: u2).takeWhile (fun c => !(authDelim c)) = [] := by
                simp [List.takeWhile_cons, authDelim]
              rw [hslash, List.append_nil, hauth,
                takeWhile_eq_self_of_dropWhile_nil r2 hstop]
            · obtain ⟨f1, _⟩ := twAppend_stop r2 ('/' :: u2) hstop
              rw [f1, hauth]
          rw [hauth2, hhost]
          have hne : h ≠ [] := by rw [← hhost]; exact hhe
          rw [if_neg hne]
          exact ⟨_, rfl, rfl⟩

theorem get_html_no_panic (fetch : Str → Option Str) (r : Str) (pr : UrlParts)
    (hp : urlParse r = some pr) : get_html fetch r ≠ Res.panicked := by
  unfold get_html
  rw [hp]
  dsimp only
  split
  · intro hcon
    exact Res.noConfusion hcon
  · cases fetch r with
    | none => intro hcon; exact Res.noConfusion hcon
    | some html => intro hcon; exact Res.noConfusion hcon

/-! ## The claims -/

deriving instance DecidableEq for Except

def emptyDB : DB := { sites := [], domains := [] }

def c1Origin : Str := "https://o.test".data

def c1P1 : Str := "https://o.test/p1".data

/-- Link structure of the C1 scenario: the origin links to p1 and p1
links back to the origin. -/
def c1Links (u : Str) : List Str :=
  if u = c1Origin then [c1P1] else if u = c1P1 then [c1Origin] else []

/-- Gate for the C1 scenario: no robots.txt exists, so is_allowed is
always true and the compound condition `should_skip && !is_allowed` is
always false. -/
def c1Gate : Str → Bool := fun _ => false

/-- C1: the claim states that after one breadth level the next frontier is
`(⋃ outbound sets) \ V'`, so every URL — the origin included — is processed
at most once per run.  Evaluating `iterate_links` on the two-page cycle
(origin ↔ p1): after the first level the code's next frontier is `[origin]`,
although the claimed `F' = outbound \ V'` is empty (second conjunct), and in
a depth-2 run the origin — already processed at seed time — is processed a
second time (the seed processing is the leading `c1Origin` in the trace). -/
theorem C1_origin_reprocessed :
    (iterate_links c1Gate c1Links c1Origin (c1Links c1Origin) 1).2.2 = [c1Origin] ∧
    diffS (c1Links c1P1) (unionS [c1Origin] [c1P1]) = [] ∧
    (c1Origin :: (iterate_links c1Gate c1Links c1Origin (c1Links c1Origin) 2).1).count c1Origin
      = 2 := by
  decide

/-- C2: in the per-URL pipeline of one iterate step, a frontier URL is
dropped (`ok none`) without fetching if and only if `should_skip_cached_url`
returns true AND `is_allowed_to_scrape` returns false; in every other case
the URL is fetched and processed (the closure returns the url with its
fetched links). -/
theorem C2_per_url_gate (shouldSkip isAllowed : Str → Except Str Bool)
    (fetchLinks : Str → List Str) (url : Str) (b1 b2 : Bool)
    (h1 : shouldSkip url = .ok b1) (h2 : isAllowed url = .ok b2) :
    (processUrl shouldSkip isAllowed fetchLinks url = .ok none ↔ b1 = true ∧ b2 = false) ∧
    (¬(b1 = true ∧ b2 = false) →
      processUrl shouldSkip isAllowed fetchLinks url = .ok (some (url, fetchLinks url))) := by
  unfold processUrl
  rw [h1]
  cases b1 with
  | false => simp
  | true =>
    rw [h2]
    cases b2 <;> simp

def c2Skip : Str → Except Str Bool := fun _ => .ok true

def c2Allow : Str → Except Str Bool := fun _ => .ok false

def c2Fetch : Str → List Str := fun _ => []

def c2Url : Str := "https://a.test/x".data

theorem C2_per_url_gate_witness :
    (processUrl c2Skip c2Allow c2Fetch c2Url = .ok none ↔ true = true ∧ false = false) ∧
    (¬(true = true ∧ false = false) →
      processUrl c2Skip c2Allow c2Fetch c2Url = .ok (some (c2Url, c2Fetch c2Url))) :=
  C2_per_url_gate c2Skip c2Allow c2Fetch c2Url true false rfl rfl

def c3NoRobots : Str → Option Str := fun _ => none

def c3Url : Str := "https://a.test/x".data

/-- C3 counterexample: with an empty store and a robots.txt fetch that fails
(e.g. 404, so `get_robots` returns None), `is_allowed_to_scrape` treats the
URL as allowed but returns the store UNCHANGED — no DomainRecord with an
empty robots field is written, contrary to the claim (write_domain is only
called in the Some branch of the fetch). -/
theorem C3_no_record_written :
    is_allowed_to_scrape 0 c3NoRobots c3Url emptyDB = .ok (true, emptyDB) ∧
    emptyDB.domains = [] := by
  decide

/-- C3 amended: when the robots.txt fetch for a host fails or returns a
non-success status, NO DomainRecord is written (the store is unchanged, so a
later URL on the host will retry the fetch), and the URL is treated as
allowed (the empty robots body yields no rules, and no matching rule means
allowed). -/
theorem C3_failed_fetch_allows_no_write (now : Nat) (fetchRobots : Str → Option Str)
    (url host : Str) (parsed : UrlParts) (db : DB)
    (hp : urlParse url = some parsed) (hhost : parsed.host = some host)
    (hread : Domain.read_into host db = .ok none)
    (hf : fetchRobots host = none) :
    is_allowed_to_scrape now fetchRobots url db = .ok (true, db) := by
  unfold is_allowed_to_scrape
  rw [hp]
  dsimp only
  rw [hhost]
  dsimp only
  rw [hread]
  dsimp only
  rw [hf]
  dsimp only
  have h1 : chooseSection [] rustleUA = [] := by decide
  rw [h1]
  rfl

def c3Parsed : UrlParts :=
  { scheme := "https".data, host := some ("a.test".data), path := "/x".data }

theorem C3_failed_fetch_witness :
    is_allowed_to_scrape 5 c3NoRobots c3Url emptyDB = .ok (true, emptyDB) :=
  C3_failed_fetch_allows_no_write 5 c3NoRobots c3Url ("a.test".data) c3Parsed emptyDB
    (by decide) (by decide) (by decide) rfl

def c4Url : Str := "https://a.test/old".data

def c4BadRow : SiteRow := { crawl_time := "not-a-date".data, links_to := [] }

def c4BadDB : DB := { sites := [(c4Url, c4BadRow)], domains := [] }

/-- C4 counterexample: a stored SiteRecord whose crawl_time is not RFC 3339
makes `should_skip_cached_url` return an error — NOT false — and the
per-URL closure's `.unwrap()` panics, aborting the crawl, instead of the
record being treated as absent. -/
theorem C4_bad_timestamp_aborts :
    should_skip_cached_url 0 c4Url c4BadDB ≠ .ok false ∧
    should_skip_cached_url 0 c4Url c4BadDB =
      .error ("Failed to parse crawl_time as RFC 3339".data) ∧
    processUrl (fun v => should_skip_cached_url 0 v c4BadDB) (fun _ => .ok true) (fun _ => [])
      c4Url = .panicked := by
  decide

/-- C4 amended: if the stored crawl_time of a SiteRecord is not parseable as
RFC 3339, `Site::read_into` returns an error (not "absent"),
`should_skip_cached_url` propagates that error via `?`, and the per-URL
`.unwrap()` in iterate_links panics, aborting the crawl — the freshness
check does not return false and the crawl is not continued. -/
theorem C4_bad_timestamp_errors (now : Nat) (url : Str) (db : DB) (row : SiteRow)
    (isAllowed : Str → Except Str Bool) (fetchLinks : Str → List Str)
    (hrow : getRow url db.sites = some row)
    (hbad : parseRfc3339 row.crawl_time = none) :
    Site.read_into url db = .error ("Failed to parse crawl_time as RFC 3339".data) ∧
    should_skip_cached_url now url db =
      .error ("Failed to parse crawl_time as RFC 3339".data) ∧
    processUrl (fun v => should_skip_cached_url now v db) isAllowed fetchLinks url =
      .panicked := by
  have hread : Site.read_into url db =
      .error ("Failed to parse crawl_time as RFC 3339".data) := by
    unfold Site.read_into
    rw [sqlLiteralContents_doubleQuotes]
    dsimp only
    rw [hrow]
    dsimp only
    rw [hbad]
  have hskip : should_skip_cached_url now url db =
      .error ("Failed to parse crawl_time as RFC 3339".data) := by
    unfold should_skip_cached_url
    rw [hread]
  refine ⟨hread, hskip, ?_⟩
  unfold processUrl
  dsimp only
  rw [hskip]

theorem C4_bad_timestamp_errors_witness :
    Site.read_into c4Url c4BadDB = .error ("Failed to parse crawl_time as RFC 3339".data) ∧
    should_skip_cached_url 7 c4Url c4BadDB =
      .error ("Failed to parse crawl_time as RFC 3339".data) ∧
    processUrl (fun v => should_skip_cached_url 7 v c4BadDB) (fun _ => .ok false) (fun _ => [])
      c4Url = .panicked :=
  C4_bad_timestamp_errors 7 c4Url c4BadDB c4BadRow (fun _ => .ok false) (fun _ => [])
    (by decide) (by decide)

def c5Fetch : Str → Option Str := fun _ => some ("<html></html>".data)

def c5Extract : Str → List Str := fun _ => []

def c5Url : Str := "https://a.test/x".data

def c5Site : Site := { url := c5Url, crawl_time := 0, links_to := [] }

/-- C5 counterexample: `Site::write_into` ends in
`database.execute(&query).unwrap()`; when the Store execute fails during a
per-URL SiteRecord write, the write panics and the per-URL pipeline aborts
(`.panicked`) — the crawl terminates instead of logging and dropping only
that URL. -/
theorem C5_write_failure_panics_eval :
    Site.write_into true c5Site emptyDB = none ∧
    fetch_and_process_links c5Fetch c5Extract true 0 c5Url emptyDB = .panicked := by
  decide

/-- C5 amended: a Store execute failure during a per-URL SiteRecord write
(after a successful fetch) makes `Site::write_into`'s unwrap panic and
aborts the crawl; it is not logged-and-continued. -/
theorem C5_write_failure_aborts (fetch : Str → Option Str) (extract : Str → List Str)
    (now : Nat) (url : Str) (db : DB) (html : Str)
    (hfetch : get_html fetch url = .ok (some html)) :
    Site.write_into true { url := url, crawl_time := now, links_to := extract html } db =
      none ∧
    fetch_and_process_links fetch extract true now url db = .panicked := by
  have hw : Site.write_into true
      { url := url, crawl_time := now, links_to := extract html } db = none := by
    unfold Site.write_into
    rw [sqlLiteralContents_doubleQuotes, sqlLiteralContents_toRfc3339,
      sqlLiteralContents_doubleQuotes]
    rfl
  refine ⟨hw, ?_⟩
  unfold fetch_and_process_links
  rw [hfetch]
  dsimp only
  rw [show write_site true now url (extract html) db = none from hw]

theorem C5_write_failure_aborts_witness :
    Site.write_into true
      { url := c5Url, crawl_time := 3, links_to := c5Extract ("<html></html>".data) }
      emptyDB = none ∧
    fetch_and_process_links c5Fetch c5Extract true 3 c5Url emptyDB = .panicked :=
  C5_write_failure_aborts c5Fetch c5Extract 3 c5Url emptyDB ("<html></html>".data) (by decide)

def c6Bad : Site := { url := "https://a.test".data, crawl_time := 0, links_to := [[]] }

def c6BadRead : Site := { url := "https://a.test".data, crawl_time := 0, links_to := [] }

/-- C6 counterexample: the site record whose link set is the singleton
containing the empty string (ASCII url, one link, no commas) does not
round-trip: the empty joined column reads back as the empty set. -/
theorem C6_roundtrip_fails_on_empty_link :
    (Site.write_into false c6Bad emptyDB).map (fun db2 => Site.read_into c6Bad.url db2) =
      some (.ok (some c6BadRead)) ∧ c6BadRead ≠ c6Bad := by
  decide

/-- C6 amended: `read(write(site)) = site` holds for site records whose
crawl_time is representable in the writer's four-digit-year profile, whose
url has no two adjacent single quotes, whose link set is not the singleton
empty string, and whose links contain no commas, no adjacent quote pairs,
and no leading/trailing whitespace; an empty links column still reads back
as the empty set and a non-empty one is split on `,` with elements
trimmed. -/
theorem C6_site_roundtrip (s : Site) (db db2 : DB)
    (ht : s.crawl_time < 253402300800)
    (hu : noQQ s.url = true)
    (hne : s.links_to ≠ [[]])
    (hl : ∀ l ∈ s.links_to, ¬(',' ∈ l) ∧ noQQ l = true ∧ trimS l = l)
    (hw : Site.write_into false s db = some db2) :
    Site.read_into s.url db2 = .ok (some s) := by
  unfold Site.write_into at hw
  rw [sqlLiteralContents_doubleQuotes, sqlLiteralContents_toRfc3339,
    sqlLiteralContents_doubleQuotes] at hw
  dsimp only at hw
  injection hw with hw2
  subst hw2
  unfold Site.read_into
  rw [sqlLiteralContents_doubleQuotes]
  dsimp only
  rw [getRow_putRow]
  dsimp only
  rw [parseRfc3339_toRfc3339 s.crawl_time ht]
  dsimp only
  rw [collapseQuotes_of_noQQ s.url hu]
  by_cases hemp : s.links_to = []
  · rw [hemp]
    have hj : joinComma ([] : List Str) = [] := rfl
    rw [hj, if_pos rfl, ← hemp]
  · have hmem : ∀ l ∈ s.links_to, ¬(',' ∈ l) := fun l hl2 => (hl l hl2).1
    have hnq : ∀ l ∈ s.links_to, noQQ l = true := fun l hl2 => (hl l hl2).2.1
    have htr : ∀ l ∈ s.links_to, trimS l = l := fun l hl2 => (hl l hl2).2.2
    have hjne : joinComma s.links_to ≠ [] := joinComma_ne_nil _ hemp hne
    rw [if_neg hjne]
    rw [collapseQuotes_of_noQQ _ (noQQ_joinComma _ hnq)]
    rw [splitComma_joinComma _ hemp hmem]
    rw [map_trimS_id _ htr]

def c6Good : Site :=
  { url := "https://a.test".data, crawl_time := 86400, links_to := ["https://a.test/b".data] }

def c6GoodDB : DB :=
  { sites := [("https://a.test".data,
      { crawl_time := toRfc3339 86400, links_to := joinComma c6Good.links_to })],
    domains := [] }

theorem C6_site_roundtrip_witness :
    Site.read_into c6Good.url c6GoodDB = .ok (some c6Good) :=
  C6_site_roundtrip c6Good emptyDB c6GoodDB (by decide) (by decide) (by decide)
    (by decide) (by decide)

def c7Bad : Domain :=
  { domain := "a.test".data, crawl_time := 0, robots := [quoteChar, quoteChar] }

def c7BadRead : Domain :=
  { domain := "a.test".data, crawl_time := 0, robots := [quoteChar] }

/-- C7 counterexample: a domain record whose robots body is two adjacent
single quotes does not round-trip: the doubling on write is undone by the
sqlite driver itself, and the read-side `.replace("''", "'")` then collapses
the two genuine quotes of the stored body into one. -/
theorem C7_roundtrip_fails_on_quote_pair :
    (Domain.write_into c7Bad emptyDB).map (fun db2 => Domain.read_into c7Bad.domain db2) =
      some (.ok (some c7BadRead)) ∧ c7BadRead ≠ c7Bad := by
  decide

/-- C7 amended: `read(write(domain)) = domain` holds for domain records
whose crawl_time is representable in the writer's four-digit-year profile
and whose robots body contains no two ADJACENT single quotes (isolated
single quotes are fine and are preserved); a body containing a doubled
quote loses one quote per pair on read. -/
theorem C7_domain_roundtrip (d : Domain) (db db2 : DB)
    (ht : d.crawl_time < 253402300800)
    (hr : noQQ d.robots = true)
    (hw : Domain.write_into d db = some db2) :
    Domain.read_into d.domain db2 = .ok (some d) := by
  unfold Domain.write_into at hw
  rw [sqlLiteralContents_toRfc3339, sqlLiteralContents_doubleQuotes] at hw
  cases hdom : sqlLiteralContents d.domain with
  | none =>
    rw [hdom] at hw
    exact Option.noConfusion hw
  | some kd =>
    rw [hdom] at hw
    dsimp only at hw
    injection hw with hw2
    subst hw2
    unfold Domain.read_into
    rw [hdom]
    dsimp only
    rw [getRow_putRow]
    dsimp only
    rw [parseRfc3339_toRfc3339 _ ht]
    dsimp only
    rw [collapseQuotes_of_noQQ _ hr]

def c7Good : Domain :=
  { domain := "a.test".data, crawl_time := 86400, robots := ['a', quoteChar, 'b'] }

def c7GoodDB : DB :=
  { sites := [],
    domains := [("a.test".data,
      { crawl_time := toRfc3339 86400, robots := ['a', quoteChar, 'b'] })] }

theorem C7_domain_roundtrip_witness :
    Domain.read_into c7Good.domain c7GoodDB = .ok (some c7Good) :=
  C7_domain_roundtrip c7Good emptyDB c7GoodDB (by decide) (by decide) (by decide)

/-- C8: given that reading the url from the store succeeds,
`should_skip_cached_url` returns true iff a SiteRecord exists whose
crawl_time is strictly newer than `now` minus 24 hours (86400 s), and
returns false otherwise (no record, or a crawl_time at least that old). -/
theorem C8_freshness_window (now : Nat) (url : Str) (db : DB) (r : Option Site)
    (hread : Site.read_into url db = .ok r) :
    (should_skip_cached_url now url db = .ok true ↔
      ∃ s, r = some s ∧ (now : Int) - 86400 < (s.crawl_time : Int)) ∧
    (should_skip_cached_url now url db = .ok false ↔
      ∀ s, r = some s → (s.crawl_time : Int) ≤ (now : Int) - 86400) := by
  unfold should_skip_cached_url
  rw [hread]
  cases r with
  | none =>
    dsimp only
    constructor
    · constructor
      · intro hcon
        injection hcon with hb
        exact Bool.noConfusion hb
      · rintro ⟨s, hs, _⟩
        exact Option.noConfusion hs
    · constructor
      · intro _ s hs
        exact Option.noConfusion hs
      · intro _
        rfl
  | some s =>
    dsimp only
    constructor
    · constructor
      · intro he
        injection he with he2
        exact ⟨s, rfl, of_decide_eq_true he2⟩
      · rintro ⟨s', hs', hlt⟩
        injection hs' with hs''
        subst hs''
        rw [decide_eq_true hlt]
    · constructor
      · intro he s' hs'
        injection he with he2
        injection hs' with hs''
        subst hs''
        have hnlt := of_decide_eq_false he2
        omega
      · intro hall
        have h1 := hall s rfl
        have h2 : decide ((now : Int) - 86400 < (s.crawl_time : Int)) = false :=
          decide_eq_false (by omega)
        rw [h2]

def c8Url : Str := "https://a.test/c8".data

def c8Row : SiteRow := { crawl_time := toRfc3339 86400, links_to := [] }

def c8DB : DB := { sites := [(c8Url, c8Row)], domains := [] }

def c8Site : Site := { url := c8Url, crawl_time := 86400, links_to := [] }

theorem C8_freshness_window_witness :
    (should_skip_cached_url 100000 c8Url c8DB = .ok true ↔
      ∃ s, (some c8Site : Option Site) = some s ∧
        (100000 : Int) - 86400 < (s.crawl_time : Int)) ∧
    (should_skip_cached_url 100000 c8Url c8DB = .ok false ↔
      ∀ s, (some c8Site : Option Site) = some s →
        (s.crawl_time : Int) ≤ (100000 : Int) - 86400) :=
  C8_freshness_window 100000 c8Url c8DB (some c8Site) (by decide)

/-- C9: `normalize_url` returns the href unchanged when it parses as an
absolute URL with a host; rejects it when it parses without a host;
prepends `https:` when it does not parse and starts with `//`; prepends the
origin when it does not parse and starts with `/` (but not `//`); and
returns no URL in every other case — in particular fragment-only links,
mailto: and javascript: hrefs are rejected. -/
theorem C9_normalize_url_cases (origin u : Str) :
    (∀ parsed, urlParse u = some parsed → parsed.host.isSome = true →
      normalize_url origin u = some u) ∧
    (∀ parsed, urlParse u = some parsed → parsed.host = none →
      normalize_url origin u = none) ∧
    (urlParse u = none → isPre ("//".data) u = true →
      normalize_url origin u = some ("https:".data ++ u)) ∧
    (urlParse u = none → isPre ("//".data) u = false → isPre ("/".data) u = true →
      normalize_url origin u = some (origin ++ u)) ∧
    (urlParse u = none → isPre ("/".data) u = false → normalize_url origin u = none) ∧
    normalize_url origin ("mailto:x@a.test".data) = none ∧
    normalize_url origin ("javascript:void(0)".data) = none ∧
    normalize_url origin ("#fragment".data) = none := by
  refine ⟨?_, ?_, ?_, ?_, ?_, ?_, ?_, ?_⟩
  · intro parsed hp hhost
    unfold normalize_url
    rw [hp]
    dsimp only
    rw [if_pos hhost]
  · intro parsed hp hhost
    unfold normalize_url
    rw [hp]
    dsimp only
    rw [if_neg (by rw [hhost]; exact Bool.noConfusion)]
  · intro hp hpre
    unfold normalize_url
    rw [hp]
    dsimp only
    rw [if_pos hpre]
  · intro hp hpre2 hpre1
    unfold normalize_url
    rw [hp]
    dsimp only
    rw [if_neg (by rw [hpre2]; exact Bool.noConfusion), if_pos hpre1]
  · intro hp hslash
    have h2 : isPre ("//".data) u = false := by
      cases u with
      | nil => rfl
      | cons a b =>
        by_cases ha : ('/' == a) = true
        · exfalso
          have : isPre ("/".data) (a :: b) = true := by
            show (('/' == a) && isPre [] b) = true
            rw [ha]
            rfl
          rw [this] at hslash
          exact Bool.noConfusion hslash
        · show (('/' == a) && isPre ("/".data) b) = false
          rw [Bool.eq_false_iff.mpr ha]
          rfl
    unfold normalize_url
    rw [hp]
    dsimp only
    rw [if_neg (by rw [h2]; exact Bool.noConfusion),
      if_neg (by rw [hslash]; exact Bool.noConfusion)]
  · rfl
  · rfl
  · rfl

theorem C9_normalize_url_witness :
    normalize_url ("https://a.test".data) ("//cdn.x/l".data) =
      some ("https:".data ++ "//cdn.x/l".data) ∧
    normalize_url ("https://a.test".data) ("/ok".data) =
      some ("https://a.test".data ++ "/ok".data) :=
  ⟨(C9_normalize_url_cases ("https://a.test".data) ("//cdn.x/l".data)).2.2.1
      (by decide) (by decide),
   (C9_normalize_url_cases ("https://a.test".data) ("/ok".data)).2.2.2.1
      (by decide) (by decide) (by decide)⟩

def c10Fetch : Str → Option Str := fun _ => none

/-- C10 counterexample: the href `//` is accepted by `normalize_url`
(yielding `https://`), but `https://` does not parse (empty host), so the
`Url::parse(url).unwrap()` in get_html panics on this frontier URL. -/
theorem C10_protocol_relative_panics :
    normalize_url ("https://a.test".data) ("//".data) = some ("https://".data) ∧
    urlParse ("https://".data) = none ∧
    get_html c10Fetch ("https://".data) = .panicked := by
  decide

/-- C10 amended: for every href accepted by `normalize_url` through the
absolute-URL case or the single-slash-relative case (against an origin that
parses as an http/https URL with a host), the resulting string parses as a
URL with a host and the unwraps in get_html cannot panic; hrefs accepted
through the protocol-relative `//` case are excluded, because they can
produce strings with an empty host such as `https://`, on which
`Url::parse(..).unwrap()` panics. -/
theorem C10_reparse_safe (origin u r : Str) (po : UrlParts) (h : Str)
    (ho : urlParse origin = some po)
    (hs : po.scheme = "http".data ∨ po.scheme = "https".data)
    (hh : po.host = some h)
    (hn : normalize_url origin u = some r)
    (hnb : ¬(urlParse u = none ∧ isPre ("//".data) u = true)) :
    ∃ pr, urlParse r = some pr ∧ pr.host.isSome = true ∧
      ∀ fetch, get_html fetch r ≠ Res.panicked := by
  unfold normalize_url at hn
  cases hpu : urlParse u with
  | some parsed =>
    rw [hpu] at hn
    dsimp only at hn
    by_cases hhp : parsed.host.isSome = true
    · rw [if_pos hhp] at hn
      injection hn with hn2
      subst hn2
      exact ⟨parsed, hpu, hhp, fun fetch => get_html_no_panic fetch u parsed hpu⟩
    · rw [if_neg hhp] at hn
      exact Option.noConfusion hn
  | none =>
    rw [hpu] at hn
    dsimp only at hn
    have hnotpp : isPre ("//".data) u = false := by
      rcases Bool.eq_false_or_eq_true (isPre ("//".data) u) with ht2 | hf
      · exact absurd ⟨hpu, ht2⟩ hnb
      · exact hf
    rw [if_neg (by rw [hnotpp]; exact Bool.noConfusion)] at hn
    by_cases hsl : isPre ("/".data) u = true
    · rw [if_pos hsl] at hn
      injection hn with hn2
      subst hn2
      have hsp : po.scheme ∈ specialSchemes := by
        rcases hs with h1 | h1 <;> simp [specialSchemes, h1]
      obtain ⟨pr, hpr, hprh⟩ := urlParse_append_slash origin u po h ho hsp hh hsl
      refine ⟨pr, hpr, ?_, fun fetch => get_html_no_panic fetch _ pr hpr⟩
      rw [hprh]
      rfl
    · rw [if_neg hsl] at hn
      exact Option.noConfusion hn

def c10Po : UrlParts :=
  { scheme := "https".data, host := some ("a.test".data), path := "/".data }

theorem C10_reparse_safe_witness :
    ∃ pr, urlParse ("https://a.test".data ++ "/ok".data) = some pr ∧
      pr.host.isSome = true ∧
      ∀ fetch, get_html fetch ("https://a.test".data ++ "/ok".data) ≠ Res.panicked :=
  C10_reparse_safe ("https://a.test".data) ("/ok".data)
    ("https://a.test".data ++ "/ok".data) c10Po ("a.test".data)
    (by decide) (Or.inr rfl) (by decide) (by decide) (by decide)

end Rustle
